import Mathlib

set_option linter.unusedVariables false
set_option linter.unusedSectionVars false
set_option maxRecDepth 8192

/-
  Shallow embedding of the technical-indicator engine in
  src/agent/skills/trading_advisor/technical_analysis.py.

  Machine floats are modelled as exact rationals (or reals where a square
  root occurs); Python's `round(x, n)` is modelled as rounding half to even
  on the exact value.  Functions that can raise in Python return `Option`,
  with `none` standing for the raised exception.
-/

namespace TechnicalAnalysis

section Defs

variable {α : Type} [LinearOrderedField α] [FloorRing α] [DecidableEq α]

/-- Python `round(x)`: round to the nearest integer, ties to even
(banker's rounding), on the exact value of `x`. -/
def roundHalfEven (x : α) : ℤ :=
  if x - ⌊x⌋ < 1 / 2 then ⌊x⌋
  else if x - ⌊x⌋ > 1 / 2 then ⌊x⌋ + 1
  else if 2 ∣ ⌊x⌋ then ⌊x⌋ else ⌊x⌋ + 1

/-- Python `round(x, n)` for a non-negative number of digits `n`. -/
def pyRound (n : ℕ) (x : α) : α :=
  (roundHalfEven (x * 10 ^ n) : α) / 10 ^ n

/-- Loop body of `_ema` (technical_analysis.py, lines 18-19):
`for p in prices[period:]: ema.append(p * k + ema[-1] * (1 - k))`. -/
def emaTail (k : α) (prev : α) : List α → List α
  | [] => []
  | p :: rest => (p * k + prev * (1 - k)) :: emaTail k (p * k + prev * (1 - k)) rest

/-- Function `_ema(prices, period)` (technical_analysis.py, lines 12-20). -/
def ema (prices : List α) (period : ℕ) : List α :=
  if prices.length < period then []
  else
    (prices.take period).sum / (period : α) ::
      emaTail (2 / ((period : α) + 1)) ((prices.take period).sum / (period : α))
        (prices.drop period)

/-- Function `_sma(prices, period)` (technical_analysis.py, lines 23-28).
Faithful for `period ≥ 1`; in Python `period = 0` raises ZeroDivisionError,
and every theorem below that touches `sma` assumes `1 ≤ period`. -/
def sma (prices : List α) (period : ℕ) : List (Option α) :=
  List.replicate (period - 1) none ++
    (List.range' (period - 1) (prices.length - (period - 1))).map
      (fun i => some (((prices.drop (i + 1 - period)).take period).sum / (period : α)))

/-- The list `gains` built in `compute_rsi` (lines 44-48):
`gains.append(max(close[i] - close[i-1], 0))` for `i = 1 .. len(close)-1`. -/
def gainsOf (close : List α) : List α :=
  List.zipWith (fun a b => max (b - a) 0) close close.tail

/-- The list `losses` built in `compute_rsi` (lines 44-48):
`losses.append(max(-(close[i] - close[i-1]), 0))` for `i = 1 .. len(close)-1`. -/
def lossesOf (close : List α) : List α :=
  List.zipWith (fun a b => max (a - b) 0) close close.tail

/-- Inner function `_rsi(ag, al)` of `compute_rsi` (lines 55-63):
both averages zero gives the neutral 50.0, zero average loss alone gives
100.0, and otherwise `round(100 - 100/(1 + ag/al), 2)`. -/
def rsiPoint (ag al : α) : α :=
  if ag = 0 ∧ al = 0 then 50
  else if al = 0 then 100
  else pyRound 2 (100 - 100 / (1 + ag / al))

/-- Wilder-smoothing loop of `compute_rsi` (lines 67-70), walking the zipped
tails of `gains` and `losses` and emitting one RSI value per step. -/
def rsiGo (period : ℕ) (ag al : α) : List (α × α) → List (Option α)
  | [] => []
  | (g, l) :: rest =>
      some (rsiPoint ((ag * ((period : α) - 1) + g) / (period : α))
                     ((al * ((period : α) - 1) + l) / (period : α))) ::
        rsiGo period ((ag * ((period : α) - 1) + g) / (period : α))
                     ((al * ((period : α) - 1) + l) / (period : α)) rest

/-- Body of `compute_rsi(close, period)` (lines 31-72) past the length guard;
faithful for `period ≥ 1`. -/
def rsiList (close : List α) (period : ℕ) : List (Option α) :=
  if close.length < period + 1 then List.replicate close.length none
  else
    List.replicate period none ++
      (some (rsiPoint (((gainsOf close).take period).sum / (period : α))
                      (((lossesOf close).take period).sum / (period : α))) ::
        rsiGo period (((gainsOf close).take period).sum / (period : α))
                     (((lossesOf close).take period).sum / (period : α))
          (((gainsOf close).drop period).zip ((lossesOf close).drop period)))

/-- Function `compute_rsi(close, period)` (lines 31-72).  For `period = 0`
and a non-empty `close` the Python code raises ZeroDivisionError at
`sum(gains[:period]) / period`; that exception is modelled as `none`. -/
def computeRsi (close : List α) (period : ℕ) : Option (List (Option α)) :=
  if period = 0 ∧ period + 1 ≤ close.length then none
  else some (rsiList close period)

/-- Return value of `compute_macd` (lines 109-113). -/
structure MacdData (α : Type) where
  macd : List α
  signal : List α
  histogram : List α
deriving DecidableEq

/-- Function `compute_macd(close, fast, slow, signal)` (lines 75-113). -/
def computeMacd (close : List α) (fast slow signal : ℕ) : MacdData α :=
  if close.length < slow + signal then ⟨[], [], []⟩
  else
    let emaFast := ema close fast
    let emaSlow := ema close slow
    let macdLine := List.zipWith (fun f s => pyRound 4 (f - s))
      (emaFast.drop (slow - fast)) emaSlow
    let signalLine := ema macdLine signal
    let alignedMacd := macdLine.drop (signal - 1)
    { macd := alignedMacd.map (pyRound 4)
      signal := signalLine.map (pyRound 4)
      histogram := List.zipWith (fun m s => pyRound 4 (m - s)) alignedMacd signalLine }

end Defs

/-- Return value of `compute_bollinger_bands` (line 142). -/
structure BollingerBands (α : Type) where
  upper : List α
  middle : List α
  lower : List α
deriving DecidableEq

/-- The window `close[i-period+1 : i+1]` of the `compute_bollinger_bands`
loop (line 134). -/
def windowAt (close : List ℝ) (period i : ℕ) : List ℝ :=
  (close.drop (i + 1 - period)).take period

/-- Per-window `sma = sum(window) / period` (line 135). -/
noncomputable def smaAt (close : List ℝ) (period i : ℕ) : ℝ :=
  (windowAt close period i).sum / (period : ℝ)

/-- Per-window `std = sqrt(sum((p - sma)**2 for p in window) / period)`
(lines 136-137), with `math.sqrt` modelled by `Real.sqrt`. -/
noncomputable def stdAt (close : List ℝ) (period i : ℕ) : ℝ :=
  Real.sqrt (((windowAt close period i).map
    (fun p => (p - smaAt close period i) ^ 2)).sum / (period : ℝ))

/-- Function `compute_bollinger_bands(close, period, std_dev)`
(lines 116-142).  Faithful for `period ≥ 1` (Python raises
ZeroDivisionError for `period = 0`). -/
noncomputable def computeBollingerBands (close : List ℝ) (period : ℕ)
    (stdDev : ℝ) : BollingerBands ℝ :=
  if close.length < period then ⟨[], [], []⟩
  else
    { upper := (List.range' (period - 1) (close.length - (period - 1))).map
        fun i => pyRound 2 (smaAt close period i + stdDev * stdAt close period i)
      middle := (List.range' (period - 1) (close.length - (period - 1))).map
        fun i => pyRound 2 (smaAt close period i)
      lower := (List.range' (period - 1) (close.length - (period - 1))).map
        fun i => pyRound 2 (smaAt close period i - stdDev * stdAt close period i) }

/-- Python `next((v for v in reversed(xs) if v is not None), None)`
(lines 173-176). -/
def lastSome {α : Type} (xs : List (Option α)) : Option α :=
  xs.reverse.findSome? id

/-- Python `round(v, 2) if v else None` applied to an optional float
(lines 225, 229-231): both `None` and `0.0` are falsy. -/
noncomputable def roundIfTruthy (v : Option ℝ) : Option ℝ :=
  match v with
  | none => none
  | some x => if x = 0 then none else some (pyRound 2 x)

/-- The `latest` dictionary of `compute_indicators` (lines 223-236). -/
structure LatestValues where
  close : ℝ
  rsi : Option ℝ
  macd : Option ℝ
  macd_signal : Option ℝ
  macd_histogram : Option ℝ
  sma_20 : Option ℝ
  sma_50 : Option ℝ
  sma_200 : Option ℝ
  bb_upper : Option ℝ
  bb_lower : Option ℝ
  trend : String
  trend_30d_pct : ℝ

/-- Return value of `compute_indicators` (lines 216-239). -/
structure IndicatorSummary where
  rsi : List (Option ℝ)
  macd : MacdData ℝ
  bollinger_bands : BollingerBands ℝ
  sma_20 : List (Option ℝ)
  sma_50 : List (Option ℝ)
  sma_200 : List (Option ℝ)
  latest : LatestValues
  signals : List String
  data_points : ℕ

/-- Function `compute_indicators(dates, close, high, low, volume)`
(lines 145-239).  The interpolated numbers of the f-strings in `signals`
are elided (no claim depends on the text); `none` models the IndexError
raised at `close[0]` (line 212) when `close` is empty and shorter than 30.
The `dates`, `high`, `low` and `volume` arguments are never read, exactly
as in the source. -/
noncomputable def computeIndicators (dates : List String) (close : List ℝ)
    (high low : List ℝ) (volume : List ℤ) : Option IndicatorSummary :=
  let sma20 := sma close 20
  let sma50 := sma close 50
  let sma200 := sma close 200
  let rsi14 := rsiList close 14
  let macdData := computeMacd close 12 26 9
  let bbData := computeBollingerBands close 20 2
  let lastClose : ℝ := (close.getLast?).getD 0
  let lastRsi := lastSome rsi14
  let lastSma20 := lastSome sma20
  let lastSma50 := lastSome sma50
  let lastSma200 := lastSome sma200
  let lastMacd := macdData.macd.getLast?
  let lastSignal := macdData.signal.getLast?
  let lastHist := macdData.histogram.getLast?
  let lastBbUpper := bbData.upper.getLast?
  let lastBbLower := bbData.lower.getLast?
  let sigRsi : List String :=
    match lastRsi with
    | none => []
    | some r =>
        if r > 70 then ["RSI: Overbought - potential pullback."]
        else if r < 30 then ["RSI: Oversold - potential bounce."]
        else ["RSI: Neutral zone."]
  let sigMacd : List String :=
    match lastMacd, lastSignal with
    | some m, some s =>
        if m > s then ["MACD above signal line: Bullish momentum."]
        else ["MACD below signal line: Bearish momentum."]
    | _, _ => []
  let sigCross : List String :=
    match lastSma50, lastSma200 with
    | some a, some b =>
        if a = 0 ∨ b = 0 then []
        else if a > b then ["Golden Cross active (50MA > 200MA): Long-term bullish."]
        else ["Death Cross active (50MA < 200MA): Long-term bearish."]
    | _, _ => []
  let sigBb : List String :=
    match lastBbUpper, lastBbLower with
    | some u, some l =>
        if lastClose = 0 ∨ u = 0 ∨ l = 0 then []
        else if lastClose > u then
          ["Price above upper Bollinger Band: Overbought / strong momentum."]
        else if lastClose < l then
          ["Price below lower Bollinger Band: Oversold / weakness."]
        else []
    | _, _ => []
  match (if 30 ≤ close.length then (close.drop (close.length - 30)).head?
         else close.head?) with
  | none => none
  | some price30 =>
      let trendPct : ℝ := if price30 = 0 then 0 else (lastClose - price30) / price30 * 100
      let trend : String :=
        if trendPct > 2 then "Uptrend"
        else if trendPct < -2 then "Downtrend" else "Sideways"
      some
        { rsi := rsi14
          macd := macdData
          bollinger_bands := bbData
          sma_20 := sma20
          sma_50 := sma50
          sma_200 := sma200
          latest :=
            { close := lastClose
              rsi := roundIfTruthy lastRsi
              macd := lastMacd
              macd_signal := lastSignal
              macd_histogram := lastHist
              sma_20 := roundIfTruthy lastSma20
              sma_50 := roundIfTruthy lastSma50
              sma_200 := roundIfTruthy lastSma200
              bb_upper := lastBbUpper
              bb_lower := lastBbLower
              trend := trend
              trend_30d_pct := pyRound 2 trendPct }
          signals := sigRsi ++ sigMacd ++ sigCross ++ sigBb
          data_points := close.length }

/-- Concrete 20-day close series alternating between 1 and -1; its 20-window
mean is exactly 0, which exercises the truthiness test on `latest` fields. -/
def altCloses : List ℝ :=
  [1, -1, 1, -1, 1, -1, 1, -1, 1, -1, 1, -1, 1, -1, 1, -1, 1, -1, 1, -1]

section RoundLemmas

variable {α : Type} [LinearOrderedField α] [FloorRing α]

lemma roundHalfEven_intCast (z : ℤ) : roundHalfEven (z : α) = z := by
  unfold roundHalfEven
  rw [Int.floor_intCast]
  have h : (z : α) - z = 0 := by ring
  rw [h]
  norm_num

lemma le_roundHalfEven {z : ℤ} {x : α} (h : (z : α) ≤ x) : z ≤ roundHalfEven x := by
  have hz : z ≤ ⌊x⌋ := Int.le_floor.mpr h
  unfold roundHalfEven
  split_ifs <;> omega

lemma roundHalfEven_le {z : ℤ} {x : α} (h : x ≤ (z : α)) : roundHalfEven x ≤ z := by
  rcases eq_or_lt_of_le h with heq | hlt
  · rw [heq, roundHalfEven_intCast]
  · have hz : ⌊x⌋ < z := Int.floor_lt.mpr hlt
    unfold roundHalfEven
    split_ifs <;> omega

lemma roundHalfEven_mono {x y : α} (h : x ≤ y) :
    roundHalfEven x ≤ roundHalfEven y := by
  rcases lt_or_le ⌊x⌋ ⌊y⌋ with hf | hf
  · have h1 : roundHalfEven x ≤ ⌊x⌋ + 1 := by
      unfold roundHalfEven; split_ifs <;> omega
    have h2 : ⌊y⌋ ≤ roundHalfEven y := by
      unfold roundHalfEven; split_ifs <;> omega
    omega
  · have hf' : ⌊x⌋ = ⌊y⌋ := le_antisymm (Int.floor_le_floor h) hf
    have hr : x - ⌊x⌋ ≤ y - ⌊y⌋ := by rw [hf']; linarith
    unfold roundHalfEven
    rw [hf'] at *
    split_ifs <;> first | omega | linarith

lemma abs_roundHalfEven_sub_lt {x : α} (h : x - ⌊x⌋ ≠ 1 / 2) :
    |x - roundHalfEven x| < 1 / 2 := by
  have h0 : (⌊x⌋ : α) ≤ x := Int.floor_le x
  have h1 : x < ⌊x⌋ + 1 := Int.lt_floor_add_one x
  unfold roundHalfEven
  split_ifs with h2 h3 h4
  · rw [abs_lt]; constructor <;> linarith
  · push_cast
    rw [abs_lt]; constructor <;> linarith
  · exact absurd (by rw [not_lt] at h2 h3; linarith) h
  · exact absurd (by rw [not_lt] at h2 h3; linarith) h

lemma abs_sub_roundHalfEven_le (x : α) : |x - roundHalfEven x| ≤ 1 / 2 := by
  have h0 : (⌊x⌋ : α) ≤ x := Int.floor_le x
  have h1 : x < ⌊x⌋ + 1 := Int.lt_floor_add_one x
  unfold roundHalfEven
  split_ifs with h2 h3 h4
  · rw [abs_le]; constructor <;> linarith
  · push_cast
    rw [abs_le]; constructor <;> linarith
  · rw [not_lt] at h2 h3
    rw [abs_le]; constructor <;> linarith
  · rw [not_lt] at h2 h3
    push_cast
    rw [abs_le]; constructor <;> linarith

lemma roundHalfEven_eq_of_abs_lt {x : α} {z : ℤ} (h : |x - (z : α)| < 1 / 2) :
    roundHalfEven x = z := by
  have h2 := abs_sub_roundHalfEven_le x
  have h3 : |((roundHalfEven x - z : ℤ) : α)| < 1 := by
    push_cast
    calc |((roundHalfEven x : α) - z)|
        = |(roundHalfEven x - x) + (x - z)| := by ring_nf
      _ ≤ |(roundHalfEven x : α) - x| + |x - (z : α)| := abs_add _ _
      _ = |x - (roundHalfEven x : α)| + |x - (z : α)| := by rw [abs_sub_comm]
      _ < 1 := by linarith
  have h4 : |roundHalfEven x - z| < 1 := by exact_mod_cast h3
  rw [abs_lt] at h4
  omega

lemma pyRound_mono {n : ℕ} {x y : α} (h : x ≤ y) : pyRound n x ≤ pyRound n y := by
  unfold pyRound
  have hp : (0 : α) < 10 ^ n := by positivity
  have h2 : roundHalfEven (x * 10 ^ n) ≤ roundHalfEven (y * 10 ^ n) :=
    roundHalfEven_mono (mul_le_mul_of_nonneg_right h (le_of_lt hp))
  exact (div_le_div_right hp).mpr (by exact_mod_cast h2)

lemma pyRound_grid (n : ℕ) (x : α) : ∃ z : ℤ, pyRound n x = (z : α) / 10 ^ n :=
  ⟨roundHalfEven (x * 10 ^ n), rfl⟩

lemma pyRound_intCast_div (n : ℕ) (z : ℤ) :
    pyRound n ((z : α) / 10 ^ n) = (z : α) / 10 ^ n := by
  unfold pyRound
  have hp : (10 : α) ^ n ≠ 0 := by positivity
  rw [div_mul_cancel₀ _ hp, roundHalfEven_intCast]

lemma pyRound_zero (n : ℕ) : pyRound n (0 : α) = 0 := by
  unfold pyRound
  rw [zero_mul]
  rw [show ((0 : α) = ((0 : ℤ) : α)) by norm_num, roundHalfEven_intCast]
  norm_num

lemma pyRound_intCast (n : ℕ) (z : ℤ) : pyRound n ((z : α)) = (z : α) := by
  unfold pyRound
  have h : (z : α) * 10 ^ n = ((z * 10 ^ n : ℤ) : α) := by push_cast; ring
  rw [h, roundHalfEven_intCast]
  push_cast
  field_simp

end RoundLemmas

/-- Index-recursive form of the Wilder-smoothed average (spec section 4.2,
steps 2 and 4): the value that `avg_gain` (resp. `avg_loss`) holds when the
RSI value at index `period + j` of the output is emitted. -/
def wilderSmooth {α : Type} [LinearOrderedField α] (period : ℕ) (xs : List α) :
    ℕ → α
  | 0 => (xs.take period).sum / (period : α)
  | j + 1 =>
      (wilderSmooth period xs j * ((period : α) - 1) + xs.getD (period + j) 0) /
        (period : α)

section StructureLemmas

variable {α : Type} [LinearOrderedField α] [FloorRing α] [DecidableEq α]

lemma exists_of_mem_zipWith {β γ δ : Type} {f : β → γ → δ} :
    ∀ {l₁ : List β} {l₂ : List γ} {x : δ}, x ∈ List.zipWith f l₁ l₂ →
      ∃ a b, a ∈ l₁ ∧ b ∈ l₂ ∧ x = f a b := by
  intro l₁
  induction l₁ with
  | nil => intro l₂ x h; simp at h
  | cons a t ih =>
      intro l₂ x h
      cases l₂ with
      | nil => simp at h
      | cons b t₂ =>
          rw [List.zipWith_cons_cons, List.mem_cons] at h
          rcases h with h | h
          · exact ⟨a, b, List.mem_cons_self _ _, List.mem_cons_self _ _, h⟩
          · obtain ⟨a', b', ha, hb, hx⟩ := ih h
            exact ⟨a', b', List.mem_cons_of_mem _ ha, List.mem_cons_of_mem _ hb, hx⟩

lemma emaTail_length (k prev : α) (l : List α) :
    (emaTail k prev l).length = l.length := by
  induction l generalizing prev with
  | nil => rfl
  | cons p rest ih => simp [emaTail, ih]

lemma ema_length (prices : List α) (period : ℕ) :
    (ema prices period).length =
      if prices.length < period then 0 else prices.length - period + 1 := by
  unfold ema
  split_ifs with h
  · rfl
  · simp [emaTail_length, Nat.sub_add_comm]

lemma rsiGo_length (p : ℕ) (ag al : α) (gl : List (α × α)) :
    (rsiGo p ag al gl).length = gl.length := by
  induction gl generalizing ag al with
  | nil => rfl
  | cons x rest ih =>
      obtain ⟨g, l⟩ := x
      simp [rsiGo, ih]

lemma gainsOf_length (close : List α) : (gainsOf close).length = close.length - 1 := by
  simp [gainsOf, List.length_tail]

lemma lossesOf_length (close : List α) : (lossesOf close).length = close.length - 1 := by
  simp [lossesOf, List.length_tail]

lemma rsiList_length (close : List α) (period : ℕ) :
    (rsiList close period).length = close.length := by
  unfold rsiList
  split_ifs with h
  · simp
  · simp [rsiGo_length, gainsOf_length, lossesOf_length]
    omega

lemma sma_length (values : List α) (period : ℕ) :
    (sma values period).length = max values.length (period - 1) := by
  simp [sma]
  omega

lemma sma_getD_marker (values : List α) (period i : ℕ) (hi : i < period - 1) :
    (sma values period).getD i (some 0) = none := by
  unfold sma
  rw [List.getD_append _ _ _ _ (by simpa using hi)]
  simp [List.getD_eq_getElem?_getD, hi]

lemma sma_getD_eq (values : List α) (period i : ℕ) (hp : 1 ≤ period)
    (h1 : period - 1 ≤ i) (h2 : i < values.length) :
    (sma values period).getD i none =
      some (((values.drop (i + 1 - period)).take period).sum / (period : α)) := by
  unfold sma
  have hlen : (List.replicate (period - 1) (none : Option α)).length = period - 1 := by
    simp
  rw [List.getD_append_right _ _ _ _ (by simpa using h1)]
  rw [hlen]
  have hj : i - (period - 1) <
      ((List.range' (period - 1) (values.length - (period - 1))).map
        (fun i => some (((values.drop (i + 1 - period)).take period).sum /
          (period : α)))).length := by
    simp
    omega
  rw [List.getD_eq_getElem _ _ hj, List.getElem_map, List.getElem_range']
  have : period - 1 + 1 * (i - (period - 1)) = i := by omega
  rw [this]

end StructureLemmas

section SanityChecks

example : sma ([] : List ℚ) 2 = [none] := by
  simp [sma, List.range']

example : sma ([1, 2, 3] : List ℚ) 2 = [none, some (3/2), some (5/2)] := by
  simp [sma, List.range']
  norm_num

example : computeRsi ([1, 2, 3] : List ℚ) 2 = some [none, none, some 100] := by
  simp [computeRsi, rsiList, rsiGo, gainsOf, lossesOf, rsiPoint]
  norm_num

example : computeRsi ([3, 2, 1] : List ℚ) 2 = some [none, none, some 0] := by
  simp [computeRsi, rsiList, rsiGo, gainsOf, lossesOf, rsiPoint, pyRound, roundHalfEven]
  norm_num

example : computeRsi ([5, 5, 5] : List ℚ) 2 = some [none, none, some 50] := by
  simp [computeRsi, rsiList, rsiGo, gainsOf, lossesOf, rsiPoint]

example : computeRsi ([1, 2] : List ℚ) 0 = none := by
  simp [computeRsi]

example : pyRound 2 (1/8 : ℚ) = 12/100 := by
  norm_num [pyRound, roundHalfEven]

example : pyRound 2 (3/8 : ℚ) = 38/100 := by
  norm_num [pyRound, roundHalfEven]

example : ema ([10, 11, 12, 13, 14] : List ℚ) 3 =
    [11, 12, 13] := by
  simp [ema, emaTail]
  norm_num

end SanityChecks

section RsiLemmas

lemma mem_rsiGo_inv (p : ℕ) (Q : ℚ → ℚ → Prop) :
    ∀ (gl : List (ℚ × ℚ)) (ag al : ℚ), Q ag al →
      (∀ a b g l, Q a b → (g, l) ∈ gl →
        Q ((a * ((p : ℚ) - 1) + g) / p) ((b * ((p : ℚ) - 1) + l) / p)) →
      ∀ v ∈ rsiGo p ag al gl, ∃ a b, Q a b ∧ v = some (rsiPoint a b) := by
  intro gl
  induction gl with
  | nil => intro ag al _ _ v hv; simp [rsiGo] at hv
  | cons x rest ih =>
      obtain ⟨g, l⟩ := x
      intro ag al hQ hstep v hv
      have hhead : (g, l) ∈ (g, l) :: rest := List.mem_cons_self _ _
      rw [rsiGo, List.mem_cons] at hv
      rcases hv with hv | hv
      · exact ⟨_, _, hstep ag al g l hQ hhead, hv⟩
      · exact ih _ _ (hstep ag al g l hQ hhead)
          (fun a b g' l' hq hm => hstep a b g' l' hq (List.mem_cons_of_mem _ hm)) v hv

lemma gainsOf_nonneg (close : List ℚ) : ∀ x ∈ gainsOf close, 0 ≤ x := by
  intro x hx
  obtain ⟨a, b, _, _, hab⟩ := exists_of_mem_zipWith hx
  rw [hab]
  exact le_max_right _ _

lemma lossesOf_nonneg (close : List ℚ) : ∀ x ∈ lossesOf close, 0 ≤ x := by
  intro x hx
  obtain ⟨a, b, _, _, hab⟩ := exists_of_mem_zipWith hx
  rw [hab]
  exact le_max_right _ _

lemma rsiPoint_bounds {ag al : ℚ} (hg : 0 ≤ ag) (hl : 0 ≤ al) :
    0 ≤ rsiPoint ag al ∧ rsiPoint ag al ≤ 100 := by
  unfold rsiPoint
  split_ifs with h1 h2
  · norm_num
  · norm_num
  · have hal : 0 < al := lt_of_le_of_ne hl (Ne.symm h2)
    have hrs : 0 ≤ ag / al := div_nonneg hg hl
    have h1r : (1 : ℚ) ≤ 1 + ag / al := by linarith
    have hpos : (0 : ℚ) < 1 + ag / al := by linarith
    have hle : 100 / (1 + ag / al) ≤ 100 := by
      rw [div_le_iff hpos]; nlinarith
    have hge : (0 : ℚ) ≤ 100 / (1 + ag / al) := by positivity
    constructor
    · calc (0 : ℚ) = pyRound 2 (0 : ℚ) := (pyRound_zero 2).symm
        _ ≤ pyRound 2 (100 - 100 / (1 + ag / al)) := pyRound_mono (by linarith)
    · calc pyRound 2 (100 - 100 / (1 + ag / al))
          ≤ pyRound 2 (100 : ℚ) := pyRound_mono (by linarith)
        _ = 100 := by
            rw [show ((100 : ℚ) = ((100 : ℤ) : ℚ)) by norm_num, pyRound_intCast]

lemma sum_take_div_nonneg (xs : List ℚ) (p : ℕ) (h : ∀ x ∈ xs, 0 ≤ x) :
    0 ≤ (xs.take p).sum / (p : ℚ) :=
  div_nonneg (List.sum_nonneg fun x hx => h x (List.mem_of_mem_take hx))
    (Nat.cast_nonneg p)

lemma mem_zipWith_tail_of_chain {P : ℚ → Prop} {R : ℚ → ℚ → Prop} (f : ℚ → ℚ → ℚ)
    (hf : ∀ a b, R a b → P (f a b)) :
    ∀ close : List ℚ, close.Chain' R → ∀ x ∈ List.zipWith f close close.tail, P x := by
  intro close
  induction close with
  | nil => simp
  | cons a t ih =>
      cases t with
      | nil => simp
      | cons b t2 =>
          intro hch x hx
          rw [List.chain'_cons] at hch
          simp only [List.tail_cons, List.zipWith_cons_cons] at hx
          rcases List.mem_cons.mp hx with h | h
          · rw [h]; exact hf a b hch.1
          · exact ih hch.2 x h

lemma rsiPoint_zero_zero : rsiPoint (0 : ℚ) 0 = 50 := by simp [rsiPoint]

lemma rsiPoint_gain_only {ag : ℚ} (h : 0 < ag) : rsiPoint ag 0 = 100 := by
  unfold rsiPoint
  rw [if_neg (by rintro ⟨h1, _⟩; exact absurd h1 (ne_of_gt h)), if_pos rfl]

lemma rsiPoint_loss_only {al : ℚ} (h : 0 < al) : rsiPoint 0 al = 0 := by
  unfold rsiPoint
  rw [if_neg (by rintro ⟨_, h2⟩; exact absurd h2 (ne_of_gt h)),
      if_neg (ne_of_gt h)]
  rw [zero_div, add_zero, div_one, sub_self, pyRound_zero]

lemma rsiList_mem_inv (close : List ℚ) (period : ℕ)
    (hlen : period + 1 ≤ close.length) (Q : ℚ → ℚ → Prop)
    (hseed : Q (((gainsOf close).take period).sum / (period : ℚ))
               (((lossesOf close).take period).sum / (period : ℚ)))
    (hstep : ∀ a b g l, Q a b →
      (g, l) ∈ ((gainsOf close).drop period).zip ((lossesOf close).drop period) →
      Q ((a * ((period : ℚ) - 1) + g) / period) ((b * ((period : ℚ) - 1) + l) / period)) :
    ∀ x : ℚ, some x ∈ rsiList close period → ∃ a b, Q a b ∧ x = rsiPoint a b := by
  intro x hx
  unfold rsiList at hx
  rw [if_neg (by omega)] at hx
  rw [List.mem_append] at hx
  rcases hx with hx | hx
  · exact absurd (List.eq_of_mem_replicate hx) (by simp)
  · rw [List.mem_cons] at hx
    rcases hx with hx | hx
    · exact ⟨_, _, hseed, Option.some.inj hx⟩
    · obtain ⟨a, b, hab, hv⟩ := mem_rsiGo_inv period Q _ _ _ hseed hstep _ hx
      exact ⟨a, b, hab, Option.some.inj hv⟩

lemma rsiGo_wilder (close : List ℚ) (p : ℕ) :
    ∀ (k j : ℕ), p + j + k < (gainsOf close).length →
      (rsiGo p (wilderSmooth p (gainsOf close) j) (wilderSmooth p (lossesOf close) j)
          (((gainsOf close).drop (p + j)).zip ((lossesOf close).drop (p + j)))).getD
          k none =
        some (rsiPoint (wilderSmooth p (gainsOf close) (j + k + 1))
                       (wilderSmooth p (lossesOf close) (j + k + 1))) := by
  intro k
  induction k with
  | zero =>
      intro j hjk
      have hg : p + j < (gainsOf close).length := by omega
      have hlo : p + j < (lossesOf close).length := by
        rw [lossesOf_length]; rw [gainsOf_length] at hg; omega
      rw [List.drop_eq_getElem_cons hg, List.drop_eq_getElem_cons hlo,
        List.zip_cons_cons, rsiGo, List.getD_cons_zero]
      have hgd : (gainsOf close).getD (p + j) 0 = (gainsOf close)[p + j] :=
        List.getD_eq_getElem _ _ hg
      have hld : (lossesOf close).getD (p + j) 0 = (lossesOf close)[p + j] :=
        List.getD_eq_getElem _ _ hlo
      rw [show j + 0 + 1 = j + 1 by omega]
      rw [wilderSmooth, wilderSmooth, hgd, hld]
  | succ k ih =>
      intro j hjk
      have hg : p + j < (gainsOf close).length := by omega
      have hlo : p + j < (lossesOf close).length := by
        rw [lossesOf_length]; rw [gainsOf_length] at hg; omega
      rw [List.drop_eq_getElem_cons hg, List.drop_eq_getElem_cons hlo,
        List.zip_cons_cons, rsiGo, List.getD_cons_succ]
      have hgd : (gainsOf close)[p + j] = (gainsOf close).getD (p + j) 0 :=
        (List.getD_eq_getElem _ _ hg).symm
      have hld : (lossesOf close)[p + j] = (lossesOf close).getD (p + j) 0 :=
        (List.getD_eq_getElem _ _ hlo).symm
      rw [hgd, hld]
      rw [show (wilderSmooth p (gainsOf close) j * ((p : ℚ) - 1) +
            (gainsOf close).getD (p + j) 0) / (p : ℚ) =
          wilderSmooth p (gainsOf close) (j + 1) from rfl]
      rw [show (wilderSmooth p (lossesOf close) j * ((p : ℚ) - 1) +
            (lossesOf close).getD (p + j) 0) / (p : ℚ) =
          wilderSmooth p (lossesOf close) (j + 1) from rfl]
      rw [show p + j + 1 = p + (j + 1) by omega]
      have := ih (j + 1) (by omega)
      rw [this]
      rw [show j + 1 + k + 1 = j + (k + 1) + 1 by omega]

end RsiLemmas

section MacdLemmas

lemma pyRound4_grid (x : ℚ) : ∃ z : ℤ, pyRound 4 x * 10 ^ 4 = (z : ℚ) := by
  refine ⟨roundHalfEven (x * 10 ^ 4), ?_⟩
  unfold pyRound
  field_simp

lemma pyRound4_eq_self_of_grid {x : ℚ} (h : ∃ z : ℤ, x * 10 ^ 4 = (z : ℚ)) :
    pyRound 4 x = x := by
  obtain ⟨z, hz⟩ := h
  have hx : x = (z : ℚ) / 10 ^ 4 := by field_simp; linarith [hz]
  rw [hx, pyRound_intCast_div]

lemma grid_sum : ∀ l : List ℚ, (∀ x ∈ l, ∃ z : ℤ, x * 10 ^ 4 = (z : ℚ)) →
    ∃ z : ℤ, l.sum * 10 ^ 4 = (z : ℚ) := by
  intro l
  induction l with
  | nil => intro _; exact ⟨0, by simp⟩
  | cons a t ih =>
      intro h
      obtain ⟨za, hza⟩ := h a (List.mem_cons_self _ _)
      obtain ⟨zt, hzt⟩ := ih (fun x hx => h x (List.mem_cons_of_mem _ hx))
      refine ⟨za + zt, ?_⟩
      rw [List.sum_cons]
      push_cast
      linear_combination hza + hzt

lemma emaTail_form :
    ∀ (rest : List ℚ) (prev : ℚ),
      (∀ p ∈ rest, ∃ z : ℤ, p * 10 ^ 4 = (z : ℚ)) →
      (∃ (t : ℕ) (a : ℤ), prev * (9 * 5 ^ t * 10 ^ 4) = (a : ℚ)) →
      ∀ e ∈ emaTail (1 / 5 : ℚ) prev rest,
        ∃ (t : ℕ) (a : ℤ), e * (9 * 5 ^ t * 10 ^ 4) = (a : ℚ) := by
  intro rest
  induction rest with
  | nil => intro prev _ _ e he; simp [emaTail] at he
  | cons p tl ih =>
      intro prev hg hprev e he
      obtain ⟨zp, hzp⟩ := hg p (List.mem_cons_self _ _)
      obtain ⟨t, a, ha⟩ := hprev
      have hstep : (p * (1 / 5 : ℚ) + prev * (1 - 1 / 5)) *
          (9 * 5 ^ (t + 1) * 10 ^ 4) = ((9 * 5 ^ t * zp + 4 * a : ℤ) : ℚ) := by
        push_cast
        linear_combination (9 * (5 : ℚ) ^ t) * hzp + 4 * ha
      rw [emaTail, List.mem_cons] at he
      rcases he with he | he
      · exact ⟨t + 1, 9 * 5 ^ t * zp + 4 * a, by rw [he]; exact hstep⟩
      · exact ih _ (fun q hq => hg q (List.mem_cons_of_mem _ hq))
          ⟨t + 1, _, hstep⟩ e he

lemma ema9_form (L : List ℚ) (hL : ∀ x ∈ L, ∃ z : ℤ, x * 10 ^ 4 = (z : ℚ)) :
    ∀ s ∈ ema L 9, ∃ (t : ℕ) (a : ℤ), s * (9 * 5 ^ t * 10 ^ 4) = (a : ℚ) := by
  intro s hs
  unfold ema at hs
  split_ifs at hs with hlen
  · simp at hs
  · have hk : (2 : ℚ) / (((9 : ℕ) : ℚ) + 1) = 1 / 5 := by norm_num
    rw [hk] at hs
    obtain ⟨c, hc⟩ := grid_sum (L.take 9) (fun x hx => hL x (List.mem_of_mem_take hx))
    have hseed : (L.take 9).sum / ((9 : ℕ) : ℚ) * (9 * 5 ^ 0 * 10 ^ 4) = (c : ℚ) := by
      have h9 : ((9 : ℕ) : ℚ) = 9 := by norm_num
      rw [h9, show (L.take 9).sum / 9 * (9 * 5 ^ 0 * 10 ^ 4) =
        (L.take 9).sum * 10 ^ 4 by ring, hc]
    rw [List.mem_cons] at hs
    rcases hs with hs | hs
    · exact ⟨0, c, by rw [hs]; exact hseed⟩
    · exact emaTail_form _ _ (fun p hp => hL p (List.mem_of_mem_drop hp))
        ⟨0, c, hseed⟩ s hs

lemma noTie_of_form {s : ℚ}
    (h : ∃ (t : ℕ) (a : ℤ), s * (9 * 5 ^ t * 10 ^ 4) = (a : ℚ)) :
    s * 10 ^ 4 - ⌊s * 10 ^ 4⌋ ≠ 1 / 2 := by
  obtain ⟨t, a, ha⟩ := h
  intro htie
  have h2 : s * 10 ^ 4 = (⌊s * 10 ^ 4⌋ : ℚ) + 1 / 2 := by linarith
  have h3 : ((2 * a : ℤ) : ℚ) = ((9 * 5 ^ t * (2 * ⌊s * 10 ^ 4⌋ + 1) : ℤ) : ℚ) := by
    push_cast
    linear_combination (-2 : ℚ) * ha + 18 * (5 : ℚ) ^ t * h2
  have h4 : 2 * a = 9 * 5 ^ t * (2 * ⌊s * 10 ^ 4⌋ + 1) := by exact_mod_cast h3
  have h5 : Odd ((5 : ℤ) ^ t) := Odd.pow ⟨2, by norm_num⟩
  obtain ⟨k, hk⟩ := h5
  rw [hk] at h4
  have hodd : Odd (9 * (2 * k + 1) * (2 * ⌊s * 10 ^ 4⌋ + 1)) :=
    Odd.mul (Odd.mul ⟨4, by ring⟩ ⟨k, by ring⟩) ⟨⌊s * 10 ^ 4⌋, by ring⟩
  have heven : Even (2 * a) := ⟨a, by ring⟩
  exact (Int.even_iff_not_odd.mp heven) (h4 ▸ hodd)

lemma pyRound4_sub_of_grid_noTie {m s : ℚ}
    (hm : ∃ z : ℤ, m * 10 ^ 4 = (z : ℚ))
    (hs : s * 10 ^ 4 - ⌊s * 10 ^ 4⌋ ≠ 1 / 2) :
    pyRound 4 (m - s) = m - pyRound 4 s := by
  obtain ⟨z, hz⟩ := hm
  have h1 := abs_roundHalfEven_sub_lt hs
  have h2 : roundHalfEven ((m - s) * 10 ^ 4) = z - roundHalfEven (s * 10 ^ 4) := by
    apply roundHalfEven_eq_of_abs_lt
    have hrw : (m - s) * 10 ^ 4 - ((z - roundHalfEven (s * 10 ^ 4) : ℤ) : ℚ) =
        (roundHalfEven (s * 10 ^ 4) : ℚ) - s * 10 ^ 4 := by
      push_cast
      linear_combination hz
    rw [hrw, abs_sub_comm]
    exact h1
  unfold pyRound
  rw [h2]
  push_cast
  field_simp
  linear_combination -hz

lemma computeMacd_eq (close : List ℚ) (hn : ¬ close.length < 26 + 9) :
    computeMacd close 12 26 9 =
      { macd := ((List.zipWith (fun f s => pyRound 4 (f - s))
            ((ema close 12).drop (26 - 12)) (ema close 26)).drop (9 - 1)).map
            (pyRound 4)
        signal := (ema (List.zipWith (fun f s => pyRound 4 (f - s))
            ((ema close 12).drop (26 - 12)) (ema close 26)) 9).map (pyRound 4)
        histogram := List.zipWith (fun m s => pyRound 4 (m - s))
          ((List.zipWith (fun f s => pyRound 4 (f - s))
            ((ema close 12).drop (26 - 12)) (ema close 26)).drop (9 - 1))
          (ema (List.zipWith (fun f s => pyRound 4 (f - s))
            ((ema close 12).drop (26 - 12)) (ema close 26)) 9) } := by
  unfold computeMacd
  rw [if_neg hn]

lemma macdLine_length (close : List ℚ) (hn : ¬ close.length < 26 + 9) :
    (List.zipWith (fun f s => pyRound 4 (f - s))
      ((ema close 12).drop (26 - 12)) (ema close 26)).length =
      close.length - 25 := by
  have hf : (ema close 12).length = close.length - 12 + 1 := by
    have := ema_length close 12
    rwa [if_neg (by omega)] at this
  have hs26 : (ema close 26).length = close.length - 26 + 1 := by
    have := ema_length close 26
    rwa [if_neg (by omega)] at this
  rw [List.length_zipWith, List.length_drop, hf, hs26]
  omega

lemma macd_histogram_length (close : List ℚ) (hn : ¬ close.length < 26 + 9) :
    (computeMacd close 12 26 9).histogram.length = close.length - 33 := by
  rw [computeMacd_eq close hn]
  have hL := macdLine_length close hn
  have hS : (ema (List.zipWith (fun f s => pyRound 4 (f - s))
      ((ema close 12).drop (26 - 12)) (ema close 26)) 9).length =
      close.length - 33 := by
    have := ema_length (List.zipWith (fun f s => pyRound 4 (f - s))
      ((ema close 12).drop (26 - 12)) (ema close 26)) 9
    rw [if_neg (by omega)] at this
    rw [this, hL]
    omega
  show (List.zipWith _ _ _).length = _
  rw [List.length_zipWith, List.length_drop, hL, hS]
  omega

end MacdLemmas

section BollingerLemmas

lemma bb_length (close : List ℝ) (period : ℕ) (stdDev : ℝ) (hp : 1 ≤ period)
    (hlen : period ≤ close.length) :
    (computeBollingerBands close period stdDev).upper.length =
        close.length - period + 1 ∧
    (computeBollingerBands close period stdDev).middle.length =
        close.length - period + 1 ∧
    (computeBollingerBands close period stdDev).lower.length =
        close.length - period + 1 := by
  unfold computeBollingerBands
  rw [if_neg (by omega)]
  refine ⟨?_, ?_, ?_⟩ <;> simp <;> omega

lemma bb_middle_getD (close : List ℝ) (period : ℕ) (stdDev : ℝ) (hp : 1 ≤ period)
    (hlen : period ≤ close.length) (j : ℕ) (hj : j < close.length - period + 1) :
    (computeBollingerBands close period stdDev).middle.getD j 0 =
      pyRound 2 (smaAt close period (period - 1 + j)) := by
  unfold computeBollingerBands
  rw [if_neg (by omega)]
  have hb : j < ((List.range' (period - 1) (close.length - (period - 1))).map
      fun i => pyRound 2 (smaAt close period i)).length := by
    simp; omega
  dsimp only
  rw [List.getD_eq_getElem _ _ hb, List.getElem_map, List.getElem_range']
  rw [show period - 1 + 1 * j = period - 1 + j by omega]

lemma bb_upper_getD (close : List ℝ) (period : ℕ) (stdDev : ℝ) (hp : 1 ≤ period)
    (hlen : period ≤ close.length) (j : ℕ) (hj : j < close.length - period + 1) :
    (computeBollingerBands close period stdDev).upper.getD j 0 =
      pyRound 2 (smaAt close period (period - 1 + j) +
        stdDev * stdAt close period (period - 1 + j)) := by
  unfold computeBollingerBands
  rw [if_neg (by omega)]
  have hb : j < ((List.range' (period - 1) (close.length - (period - 1))).map
      fun i => pyRound 2 (smaAt close period i + stdDev * stdAt close period i)).length := by
    simp; omega
  dsimp only
  rw [List.getD_eq_getElem _ _ hb, List.getElem_map, List.getElem_range']
  rw [show period - 1 + 1 * j = period - 1 + j by omega]

lemma bb_lower_getD (close : List ℝ) (period : ℕ) (stdDev : ℝ) (hp : 1 ≤ period)
    (hlen : period ≤ close.length) (j : ℕ) (hj : j < close.length - period + 1) :
    (computeBollingerBands close period stdDev).lower.getD j 0 =
      pyRound 2 (smaAt close period (period - 1 + j) -
        stdDev * stdAt close period (period - 1 + j)) := by
  unfold computeBollingerBands
  rw [if_neg (by omega)]
  have hb : j < ((List.range' (period - 1) (close.length - (period - 1))).map
      fun i => pyRound 2 (smaAt close period i - stdDev * stdAt close period i)).length := by
    simp; omega
  dsimp only
  rw [List.getD_eq_getElem _ _ hb, List.getElem_map, List.getElem_range']
  rw [show period - 1 + 1 * j = period - 1 + j by omega]

lemma stdAt_nonneg (close : List ℝ) (period i : ℕ) : 0 ≤ stdAt close period i :=
  Real.sqrt_nonneg _

end BollingerLemmas

section IndicatorLemmas

lemma lastSome_replicate_none {α : Type} (n : ℕ) :
    lastSome (List.replicate n (none : Option α)) = none := by
  unfold lastSome
  rw [List.reverse_replicate]
  induction n with
  | zero => rfl
  | succ k ih => rw [List.replicate_succ, List.findSome?_cons]; exact ih

lemma lastSome_append_some {α : Type} (l : List (Option α)) (x : α) :
    lastSome (l ++ [some x]) = some x := by
  unfold lastSome
  rw [List.reverse_append]
  rfl

lemma roundIfTruthy_none_iff (v : Option ℝ) :
    roundIfTruthy v = none ↔ v = none ∨ v = some 0 := by
  cases v with
  | none => simp [roundIfTruthy]
  | some x =>
      by_cases hx : x = 0 <;> simp [roundIfTruthy, hx]

lemma roundIfTruthy_some {v : ℝ} (hv : v ≠ 0) :
    roundIfTruthy (some v) = some (pyRound 2 v) := by
  simp [roundIfTruthy, hv]

end IndicatorLemmas

section ConcreteIndicators

lemma rsiList_single : rsiList ([1] : List ℝ) 14 = [none] := by
  unfold rsiList
  rw [if_pos (by norm_num)]
  rfl

lemma computeMacd_single : computeMacd ([1] : List ℝ) 12 26 9 = ⟨[], [], []⟩ := by
  unfold computeMacd
  rw [if_pos (by norm_num)]

lemma computeBollingerBands_single :
    computeBollingerBands ([1] : List ℝ) 20 2 = ⟨[], [], []⟩ := by
  unfold computeBollingerBands
  rw [if_pos (by norm_num)]

lemma sma_single (p : ℕ) (hp : 2 ≤ p) :
    sma ([1] : List ℝ) p = List.replicate (p - 1) none := by
  unfold sma
  rw [show List.length ([1] : List ℝ) - (p - 1) = 0 by simp; omega]
  simp [List.range']

lemma computeIndicators_single :
    computeIndicators ["d"] [1] [] [] [] = some
      { rsi := [none], macd := ⟨[], [], []⟩, bollinger_bands := ⟨[], [], []⟩,
        sma_20 := List.replicate 19 none, sma_50 := List.replicate 49 none,
        sma_200 := List.replicate 199 none,
        latest := ⟨1, none, none, none, none, none, none, none, none, none,
          "Sideways", 0⟩,
        signals := [], data_points := 1 } := by
  unfold computeIndicators
  dsimp only
  rw [if_neg (by simp : ¬ 30 ≤ List.length ([1] : List ℝ))]
  rw [show ([1] : List ℝ).head? = some 1 from rfl]
  dsimp only
  rw [rsiList_single, computeMacd_single, computeBollingerBands_single,
    sma_single 20 (by norm_num), sma_single 50 (by norm_num),
    sma_single 200 (by norm_num)]
  rw [show lastSome ([none] : List (Option ℝ)) = none from rfl]
  rw [lastSome_replicate_none, lastSome_replicate_none, lastSome_replicate_none]
  rw [if_neg (by norm_num : ¬ (1 : ℝ) = 0)]
  norm_num [pyRound_zero, roundIfTruthy]

end ConcreteIndicators

section Claims

/-- C9: the result of `compute_indicators` is a function of `close` alone —
the `dates`, `high`, `low` and `volume` arguments are never read, so any two
calls with the same `close` list return identical summaries. -/
theorem computeIndicators_only_reads_close
    (dates dates' : List String) (close : List ℝ) (high high' low low' : List ℝ)
    (volume volume' : List ℤ) :
    computeIndicators dates close high low volume =
      computeIndicators dates' close high' low' volume' := rfl

/-- C2 counterexample: `_sma([], 2)` returns `[None]`, of length 1, while
the input has length 0 — the claimed "result length always equals
len(values)" fails. -/
theorem sma_length_counterexample :
    (sma ([] : List ℚ) 2).length ≠ ([] : List ℚ).length := by
  simp [sma, List.range']

/-- C2 (amended): for every `period ≥ 1`, `_sma` returns a series of length
`max (len values) (period - 1)` — hence equal to `len(values)` exactly when
`len(values) ≥ period - 1` — whose first `period - 1` positions carry the
no-value marker and whose position `i ≥ period - 1` with `i < len(values)`
is the arithmetic mean of `values[i-period+1 .. i]`. -/
theorem sma_amended (values : List ℚ) (period : ℕ) (hp : 1 ≤ period) :
    (sma values period).length = max values.length (period - 1) ∧
    (∀ i : ℕ, i < period - 1 → (sma values period).getD i (some 0) = none) ∧
    (∀ i : ℕ, period - 1 ≤ i → i < values.length →
      (sma values period).getD i none =
        some (((values.drop (i + 1 - period)).take period).sum / (period : ℚ))) :=
  ⟨sma_length values period,
   fun i hi => sma_getD_marker values period i hi,
   fun i h1 h2 => sma_getD_eq values period i hp h1 h2⟩

theorem sma_amended_witness :
    (sma ([1, 2, 3] : List ℚ) 2).length = max ([1, 2, 3] : List ℚ).length (2 - 1) ∧
    (∀ i : ℕ, i < 2 - 1 → (sma ([1, 2, 3] : List ℚ) 2).getD i (some 0) = none) ∧
    (∀ i : ℕ, 2 - 1 ≤ i → i < ([1, 2, 3] : List ℚ).length →
      (sma ([1, 2, 3] : List ℚ) 2).getD i none =
        some (((([1, 2, 3] : List ℚ).drop (i + 1 - 2)).take 2).sum / ((2 : ℕ) : ℚ))) :=
  sma_amended [1, 2, 3] 2 (by norm_num)

/-- C7: every value (other than the no-value markers) in the series returned
by `compute_rsi` lies in the interval `[0, 100]`, for every close series and
every period for which the call returns. -/
theorem rsi_values_in_range (close : List ℚ) (period : ℕ) (l : List (Option ℚ))
    (hl : computeRsi close period = some l) :
    ∀ x : ℚ, some x ∈ l → 0 ≤ x ∧ x ≤ 100 := by
  intro x hx
  unfold computeRsi at hl
  by_cases hc : period = 0 ∧ period + 1 ≤ close.length
  case pos => rw [if_pos hc] at hl; cases hl
  rw [if_neg hc] at hl
  have hl' := Option.some.inj hl
  subst hl'
  unfold rsiList at hx
  split_ifs at hx with hshort
  · exact absurd (List.eq_of_mem_replicate hx) (by simp)
  · have hp : 1 ≤ period := by
      rcases Nat.eq_zero_or_pos period with h0 | h0
      · exact absurd ⟨h0, by omega⟩ hc
      · exact h0
    have hpq : (1 : ℚ) ≤ (period : ℚ) := by exact_mod_cast hp
    have hstep : ∀ a b g l, (0 ≤ a ∧ 0 ≤ b) →
        (g, l) ∈ ((gainsOf close).drop period).zip ((lossesOf close).drop period) →
        (0 ≤ (a * ((period : ℚ) - 1) + g) / period ∧
         0 ≤ (b * ((period : ℚ) - 1) + l) / period) := by
      rintro a b g l ⟨ha, hb⟩ hm
      obtain ⟨hgm, hlm⟩ := List.of_mem_zip hm
      have hg0 : 0 ≤ g := gainsOf_nonneg close g (List.mem_of_mem_drop hgm)
      have hl0 : 0 ≤ l := lossesOf_nonneg close l (List.mem_of_mem_drop hlm)
      constructor
      · apply div_nonneg _ (by positivity)
        have : 0 ≤ a * ((period : ℚ) - 1) := mul_nonneg ha (by linarith)
        linarith
      · apply div_nonneg _ (by positivity)
        have : 0 ≤ b * ((period : ℚ) - 1) := mul_nonneg hb (by linarith)
        linarith
    rw [List.mem_append] at hx
    rcases hx with hx | hx
    · exact absurd (List.eq_of_mem_replicate hx) (by simp)
    · rw [List.mem_cons] at hx
      rcases hx with hx | hx
      · have hg := sum_take_div_nonneg (gainsOf close) period (gainsOf_nonneg close)
        have hlo := sum_take_div_nonneg (lossesOf close) period (lossesOf_nonneg close)
        have := rsiPoint_bounds hg hlo
        rw [Option.some_inj] at hx
        rw [hx]
        exact this
      · obtain ⟨a, b, ⟨ha, hb⟩, hv⟩ := mem_rsiGo_inv period (fun a b => 0 ≤ a ∧ 0 ≤ b) _ _ _
          ⟨sum_take_div_nonneg (gainsOf close) period (gainsOf_nonneg close),
           sum_take_div_nonneg (lossesOf close) period (lossesOf_nonneg close)⟩
          hstep _ hx
        rw [Option.some_inj] at hv
        rw [hv]
        exact rsiPoint_bounds ha hb

theorem rsi_values_in_range_witness :
    (0 : ℚ) ≤ 100 ∧ (100 : ℚ) ≤ 100 :=
  rsi_values_in_range [1, 2, 3] 2 [none, none, some 100]
    (by simp [computeRsi, rsiList, rsiGo, gainsOf, lossesOf, rsiPoint]; norm_num)
    100 (by simp)

/-- C1: for every close series with `len(close) ≥ period + 1`, every defined
RSI value follows the exact three-branch policy in order: 50.0 when both
Wilder-smoothed averages are zero, else 100.0 when the average loss alone is
zero, else `100 - 100/(1 + avg_gain/avg_loss)` rounded to 2 decimal places;
the first `period` output positions are no-value markers. -/
theorem rsi_branch_policy (close : List ℚ) (period : ℕ) (l : List (Option ℚ))
    (hlen : period + 1 ≤ close.length)
    (hl : computeRsi close period = some l) :
    l.length = close.length ∧
    (∀ i : ℕ, i < period → l.getD i (some 0) = none) ∧
    (∀ j : ℕ, period + j < close.length →
      l.getD (period + j) none =
        some (if wilderSmooth period (gainsOf close) j = 0 ∧
                 wilderSmooth period (lossesOf close) j = 0 then 50
              else if wilderSmooth period (lossesOf close) j = 0 then 100
              else pyRound 2 (100 - 100 /
                (1 + wilderSmooth period (gainsOf close) j /
                     wilderSmooth period (lossesOf close) j)))) := by
  unfold computeRsi at hl
  by_cases hc : period = 0 ∧ period + 1 ≤ close.length
  case pos => rw [if_pos hc] at hl; cases hl
  rw [if_neg hc] at hl
  have hl' := Option.some.inj hl
  subst hl'
  refine ⟨rsiList_length close period, ?_, ?_⟩
  · intro i hi
    unfold rsiList
    rw [if_neg (by omega)]
    rw [List.getD_append _ _ _ _ (by simpa using hi)]
    simp [List.getD_eq_getElem?_getD, hi]
  · intro j hj
    unfold rsiList
    rw [if_neg (by omega)]
    rw [List.getD_append_right _ _ _ _ (by simp)]
    rw [List.length_replicate, show period + j - period = j by omega]
    have hseedg : ((gainsOf close).take period).sum / (period : ℚ) =
        wilderSmooth period (gainsOf close) 0 := rfl
    have hseedl : ((lossesOf close).take period).sum / (period : ℚ) =
        wilderSmooth period (lossesOf close) 0 := rfl
    cases j with
    | zero =>
        rw [List.getD_cons_zero]
        rw [rsiPoint, hseedg, hseedl]
    | succ j' =>
        rw [List.getD_cons_succ]
        rw [hseedg, hseedl]
        have hb : period + 0 + j' < (gainsOf close).length := by
          rw [gainsOf_length]; omega
        have hres := rsiGo_wilder close period j' 0 hb
        simp only [Nat.add_zero, Nat.zero_add] at hres
        rw [hres]
        rw [rsiPoint]

theorem rsi_branch_policy_witness :
    ([none, none, some (100 : ℚ)] : List (Option ℚ)).length =
      ([1, 2, 3] : List ℚ).length ∧
    (∀ i : ℕ, i < 2 →
      ([none, none, some (100 : ℚ)] : List (Option ℚ)).getD i (some 0) = none) ∧
    (∀ j : ℕ, 2 + j < ([1, 2, 3] : List ℚ).length →
      ([none, none, some (100 : ℚ)] : List (Option ℚ)).getD (2 + j) none =
        some (if wilderSmooth 2 (gainsOf ([1, 2, 3] : List ℚ)) j = 0 ∧
                 wilderSmooth 2 (lossesOf ([1, 2, 3] : List ℚ)) j = 0 then 50
              else if wilderSmooth 2 (lossesOf ([1, 2, 3] : List ℚ)) j = 0 then 100
              else pyRound 2 (100 - 100 /
                (1 + wilderSmooth 2 (gainsOf ([1, 2, 3] : List ℚ)) j /
                     wilderSmooth 2 (lossesOf ([1, 2, 3] : List ℚ)) j)))) :=
  rsi_branch_policy [1, 2, 3] 2 [none, none, some 100] (by norm_num)
    (by simp [computeRsi, rsiList, rsiGo, gainsOf, lossesOf, rsiPoint]; norm_num)

/-- C8: on a close series long enough to define RSI values, a flat series
(all values equal) gives RSI 50.0 everywhere defined, a strictly increasing
series gives 100.0, and a strictly decreasing series gives 0.0. -/
theorem rsi_flat_increasing_decreasing (close : List ℚ) (period : ℕ)
    (l : List (Option ℚ)) (hlen : period + 1 ≤ close.length)
    (hl : computeRsi close period = some l) :
    (close.Chain' (fun a b => a = b) → ∀ x : ℚ, some x ∈ l → x = 50) ∧
    (close.Chain' (fun a b => a < b) → ∀ x : ℚ, some x ∈ l → x = 100) ∧
    (close.Chain' (fun a b => b < a) → ∀ x : ℚ, some x ∈ l → x = 0) := by
  unfold computeRsi at hl
  by_cases hc : period = 0 ∧ period + 1 ≤ close.length
  case pos => rw [if_pos hc] at hl; cases hl
  rw [if_neg hc] at hl
  have hl' := Option.some.inj hl
  subst hl'
  have hp : 1 ≤ period := by
    rcases Nat.eq_zero_or_pos period with h0 | h0
    · exact absurd ⟨h0, by omega⟩ hc
    · exact h0
  have hpq : (1 : ℚ) ≤ (period : ℚ) := by exact_mod_cast hp
  have hppos : (0 : ℚ) < (period : ℚ) := by
    have : 0 < period := hp
    exact_mod_cast this
  have hglen : period ≤ (gainsOf close).length := by rw [gainsOf_length]; omega
  refine ⟨?_, ?_, ?_⟩
  · intro hch x hx
    have hg0 : ∀ y ∈ gainsOf close, y = 0 :=
      mem_zipWith_tail_of_chain _ (fun a b hab => by simp [hab]) close hch
    have hlo0 : ∀ y ∈ lossesOf close, y = 0 :=
      mem_zipWith_tail_of_chain _ (fun a b hab => by simp [hab]) close hch
    have hstep : ∀ a b g l, (a = 0 ∧ b = 0) →
        (g, l) ∈ ((gainsOf close).drop period).zip ((lossesOf close).drop period) →
        ((a * ((period : ℚ) - 1) + g) / period = 0 ∧
         (b * ((period : ℚ) - 1) + l) / period = 0) := by
      rintro a b g l ⟨ha, hb⟩ hm
      obtain ⟨hgm, hlm⟩ := List.of_mem_zip hm
      have hgz : g = 0 := hg0 g (List.mem_of_mem_drop hgm)
      have hlz : l = 0 := hlo0 l (List.mem_of_mem_drop hlm)
      rw [ha, hb, hgz, hlz]
      constructor <;> simp
    obtain ⟨a, b, ⟨ha, hb⟩, hxp⟩ := rsiList_mem_inv close period hlen
      (fun a b => a = 0 ∧ b = 0)
      ⟨by rw [List.sum_eq_zero (fun y hy => hg0 y (List.mem_of_mem_take hy)), zero_div],
       by rw [List.sum_eq_zero (fun y hy => hlo0 y (List.mem_of_mem_take hy)), zero_div]⟩
      hstep x hx
    rw [hxp, ha, hb, rsiPoint_zero_zero]
  · intro hch x hx
    have hgpos : ∀ y ∈ gainsOf close, 0 < y :=
      mem_zipWith_tail_of_chain _ (fun a b hab => by
        rw [max_eq_left (by linarith : (0 : ℚ) ≤ b - a)]; linarith) close hch
    have hlo0 : ∀ y ∈ lossesOf close, y = 0 :=
      mem_zipWith_tail_of_chain _ (fun a b hab => by
        rw [max_eq_right (by linarith : a - b ≤ (0 : ℚ))]) close hch
    have hstep : ∀ a b g l, (0 < a ∧ b = 0) →
        (g, l) ∈ ((gainsOf close).drop period).zip ((lossesOf close).drop period) →
        (0 < (a * ((period : ℚ) - 1) + g) / period ∧
         (b * ((period : ℚ) - 1) + l) / period = 0) := by
      rintro a b g l ⟨ha, hb⟩ hm
      obtain ⟨hgm, hlm⟩ := List.of_mem_zip hm
      have hgz : 0 < g := hgpos g (List.mem_of_mem_drop hgm)
      have hlz : l = 0 := hlo0 l (List.mem_of_mem_drop hlm)
      constructor
      · apply div_pos _ hppos
        have : 0 ≤ a * ((period : ℚ) - 1) := mul_nonneg ha.le (by linarith)
        linarith
      · rw [hb, hlz]; simp
    have htk : (gainsOf close).take period ≠ [] :=
      List.ne_nil_of_length_pos (by rw [List.length_take]; omega)
    obtain ⟨a, b, ⟨ha, hb⟩, hxp⟩ := rsiList_mem_inv close period hlen
      (fun a b => 0 < a ∧ b = 0)
      ⟨div_pos (List.sum_pos _ (fun y hy => hgpos y (List.mem_of_mem_take hy)) htk) hppos,
       by rw [List.sum_eq_zero (fun y hy => hlo0 y (List.mem_of_mem_take hy)), zero_div]⟩
      hstep x hx
    rw [hxp, hb, rsiPoint_gain_only ha]
  · intro hch x hx
    have hg0 : ∀ y ∈ gainsOf close, y = 0 :=
      mem_zipWith_tail_of_chain _ (fun a b hab => by
        rw [max_eq_right (by linarith : b - a ≤ (0 : ℚ))]) close hch
    have hlpos : ∀ y ∈ lossesOf close, 0 < y :=
      mem_zipWith_tail_of_chain _ (fun a b hab => by
        rw [max_eq_left (by linarith : (0 : ℚ) ≤ a - b)]; linarith) close hch
    have hstep : ∀ a b g l, (a = 0 ∧ 0 < b) →
        (g, l) ∈ ((gainsOf close).drop period).zip ((lossesOf close).drop period) →
        ((a * ((period : ℚ) - 1) + g) / period = 0 ∧
         0 < (b * ((period : ℚ) - 1) + l) / period) := by
      rintro a b g l ⟨ha, hb⟩ hm
      obtain ⟨hgm, hlm⟩ := List.of_mem_zip hm
      have hgz : g = 0 := hg0 g (List.mem_of_mem_drop hgm)
      have hlz : 0 < l := hlpos l (List.mem_of_mem_drop hlm)
      constructor
      · rw [ha, hgz]; simp
      · apply div_pos _ hppos
        have : 0 ≤ b * ((period : ℚ) - 1) := mul_nonneg hb.le (by linarith)
        linarith
    have htk : (lossesOf close).take period ≠ [] :=
      List.ne_nil_of_length_pos (by rw [List.length_take, lossesOf_length]; omega)
    obtain ⟨a, b, ⟨ha, hb⟩, hxp⟩ := rsiList_mem_inv close period hlen
      (fun a b => a = 0 ∧ 0 < b)
      ⟨by rw [List.sum_eq_zero (fun y hy => hg0 y (List.mem_of_mem_take hy)), zero_div],
       div_pos (List.sum_pos _ (fun y hy => hlpos y (List.mem_of_mem_take hy)) htk) hppos⟩
      hstep x hx
    rw [hxp, ha, rsiPoint_loss_only hb]

theorem rsi_flat_increasing_decreasing_witness :
    (([5, 5, 5] : List ℚ).Chain' (fun a b => a = b) →
      ∀ x : ℚ, some x ∈ [none, none, some (50 : ℚ)] → x = 50) ∧
    (([5, 5, 5] : List ℚ).Chain' (fun a b => a < b) →
      ∀ x : ℚ, some x ∈ [none, none, some (50 : ℚ)] → x = 100) ∧
    (([5, 5, 5] : List ℚ).Chain' (fun a b => b < a) →
      ∀ x : ℚ, some x ∈ [none, none, some (50 : ℚ)] → x = 0) :=
  rsi_flat_increasing_decreasing [5, 5, 5] 2 [none, none, some 50] (by norm_num)
    (by simp [computeRsi, rsiList, rsiGo, gainsOf, lossesOf, rsiPoint])

/-- C4: for every close series, `compute_macd` (default periods 12/26/9)
returns three series of the same length whose entries are all exact
multiples of `10^(-4)` (rounded to 4 decimal places), and at every index
`|histogram[i] - (macd[i] - signal[i])| < 1e-6` — in the exact-arithmetic
model the difference is in fact 0, because the signal EMA values can never
land on a rounding tie. -/
theorem macd_histogram_consistency (close : List ℚ) :
    ((computeMacd close 12 26 9).macd.length =
        (computeMacd close 12 26 9).signal.length ∧
     (computeMacd close 12 26 9).signal.length =
        (computeMacd close 12 26 9).histogram.length) ∧
    (∀ x ∈ (computeMacd close 12 26 9).macd, ∃ z : ℤ, x * 10 ^ 4 = (z : ℚ)) ∧
    (∀ x ∈ (computeMacd close 12 26 9).signal, ∃ z : ℤ, x * 10 ^ 4 = (z : ℚ)) ∧
    (∀ x ∈ (computeMacd close 12 26 9).histogram, ∃ z : ℤ, x * 10 ^ 4 = (z : ℚ)) ∧
    (∀ i : ℕ, i < (computeMacd close 12 26 9).histogram.length →
      |(computeMacd close 12 26 9).histogram.getD i 0 -
        ((computeMacd close 12 26 9).macd.getD i 0 -
         (computeMacd close 12 26 9).signal.getD i 0)| < 1 / 1000000) := by
  by_cases hn : close.length < 26 + 9
  · have he : computeMacd close 12 26 9 = ⟨[], [], []⟩ := by
      unfold computeMacd; rw [if_pos hn]
    rw [he]
    refine ⟨⟨rfl, rfl⟩, ?_, ?_, ?_, ?_⟩ <;> simp
  · rw [computeMacd_eq close hn]
    dsimp only
    set L : List ℚ := List.zipWith (fun f s => pyRound 4 (f - s))
      ((ema close 12).drop (26 - 12)) (ema close 26) with hLdef
    set S : List ℚ := ema L 9 with hSdef
    have hLgrid : ∀ x ∈ L, ∃ z : ℤ, x * 10 ^ 4 = (z : ℚ) := by
      intro x hx
      rw [hLdef] at hx
      obtain ⟨a, b, _, _, hab⟩ := exists_of_mem_zipWith hx
      rw [hab]; exact pyRound4_grid _
    have hSform : ∀ s ∈ S, ∃ (t : ℕ) (a : ℤ), s * (9 * 5 ^ t * 10 ^ 4) = (a : ℚ) := by
      rw [hSdef]; exact ema9_form L hLgrid
    have hLlen : L.length = close.length - 25 := by
      rw [hLdef]; exact macdLine_length close hn
    have hSlen : S.length = close.length - 33 := by
      rw [hSdef]
      have := ema_length L 9
      rw [if_neg (by omega)] at this
      rw [this, hLlen]
      omega
    refine ⟨⟨?_, ?_⟩, ?_, ?_, ?_, ?_⟩
    · simp only [List.length_map, List.length_drop, hLlen, hSlen]
      omega
    · simp only [List.length_map, List.length_zipWith, List.length_drop, hLlen, hSlen]
      omega
    · intro x hx
      obtain ⟨y, _, rfl⟩ := List.mem_map.mp hx
      exact pyRound4_grid _
    · intro x hx
      obtain ⟨y, _, rfl⟩ := List.mem_map.mp hx
      exact pyRound4_grid _
    · intro x hx
      obtain ⟨a, b, _, _, rfl⟩ := exists_of_mem_zipWith hx
      exact pyRound4_grid _
    · intro i hi
      rw [List.length_zipWith, lt_min_iff] at hi
      obtain ⟨hiL, hiS⟩ := hi
      have e1 : (List.zipWith (fun m s => pyRound 4 (m - s)) (L.drop (9 - 1)) S).getD
          i 0 = pyRound 4 ((L.drop (9 - 1))[i] - S[i]) := by
        rw [List.getD_eq_getElem _ _
            (by rw [List.length_zipWith, lt_min_iff]; exact ⟨hiL, hiS⟩),
          List.getElem_zipWith]
      have e2 : ((L.drop (9 - 1)).map (pyRound 4)).getD i 0 =
          pyRound 4 ((L.drop (9 - 1))[i]) := by
        rw [List.getD_eq_getElem _ _ (by simpa using hiL), List.getElem_map]
      have e3 : (S.map (pyRound 4)).getD i 0 = pyRound 4 (S[i]) := by
        rw [List.getD_eq_getElem _ _ (by simpa using hiS), List.getElem_map]
      rw [e1, e2, e3]
      have hm : ∃ z : ℤ, (L.drop (9 - 1))[i] * 10 ^ 4 = (z : ℚ) :=
        hLgrid _ (List.mem_of_mem_drop (List.getElem_mem hiL))
      have hnt : S[i] * 10 ^ 4 - ⌊S[i] * 10 ^ 4⌋ ≠ 1 / 2 :=
        noTie_of_form (hSform _ (List.getElem_mem hiS))
      rw [pyRound4_sub_of_grid_noTie hm hnt, pyRound4_eq_self_of_grid hm]
      rw [show (L.drop (9 - 1))[i] - pyRound 4 (S[i]) -
          ((L.drop (9 - 1))[i] - pyRound 4 (S[i])) = 0 by ring]
      rw [abs_zero]
      norm_num

theorem macd_histogram_consistency_witness :
    0 < (computeMacd (List.replicate 35 (0 : ℚ)) 12 26 9).histogram.length ∧
    |(computeMacd (List.replicate 35 (0 : ℚ)) 12 26 9).histogram.getD 0 0 -
      ((computeMacd (List.replicate 35 (0 : ℚ)) 12 26 9).macd.getD 0 0 -
       (computeMacd (List.replicate 35 (0 : ℚ)) 12 26 9).signal.getD 0 0)| <
      1 / 1000000 :=
  ⟨by rw [macd_histogram_length _ (by simp)]; simp,
   (macd_histogram_consistency (List.replicate 35 0)).2.2.2.2 0
     (by rw [macd_histogram_length _ (by simp)]; simp)⟩

/-- C6: with the default multiplier `std_dev = 2.0`, for every close series
with `len(close) ≥ period ≥ 1` the three Bollinger band series have length
`n - period + 1` and satisfy `upper ≥ middle ≥ lower` at every position. -/
theorem bollinger_band_order (close : List ℝ) (period : ℕ)
    (hp : 1 ≤ period) (hlen : period ≤ close.length) :
    (computeBollingerBands close period 2).upper.length =
        close.length - period + 1 ∧
    (computeBollingerBands close period 2).middle.length =
        close.length - period + 1 ∧
    (computeBollingerBands close period 2).lower.length =
        close.length - period + 1 ∧
    (∀ i : ℕ, i < close.length - period + 1 →
      (computeBollingerBands close period 2).lower.getD i 0 ≤
        (computeBollingerBands close period 2).middle.getD i 0 ∧
      (computeBollingerBands close period 2).middle.getD i 0 ≤
        (computeBollingerBands close period 2).upper.getD i 0) := by
  obtain ⟨h1, h2, h3⟩ := bb_length close period 2 hp hlen
  refine ⟨h1, h2, h3, ?_⟩
  intro i hi
  rw [bb_lower_getD close period 2 hp hlen i hi,
      bb_middle_getD close period 2 hp hlen i hi,
      bb_upper_getD close period 2 hp hlen i hi]
  have hstd : 0 ≤ stdAt close period (period - 1 + i) := stdAt_nonneg _ _ _
  constructor
  · exact pyRound_mono (by linarith)
  · exact pyRound_mono (by linarith)

theorem bollinger_band_order_witness :
    (computeBollingerBands [1, 1] 2 2).upper.length =
        ([1, 1] : List ℝ).length - 2 + 1 ∧
    (computeBollingerBands [1, 1] 2 2).middle.length =
        ([1, 1] : List ℝ).length - 2 + 1 ∧
    (computeBollingerBands [1, 1] 2 2).lower.length =
        ([1, 1] : List ℝ).length - 2 + 1 ∧
    (∀ i : ℕ, i < ([1, 1] : List ℝ).length - 2 + 1 →
      (computeBollingerBands [1, 1] 2 2).lower.getD i 0 ≤
        (computeBollingerBands [1, 1] 2 2).middle.getD i 0 ∧
      (computeBollingerBands [1, 1] 2 2).middle.getD i 0 ≤
        (computeBollingerBands [1, 1] 2 2).upper.getD i 0) :=
  bollinger_band_order [1, 1] 2 (by norm_num) (by norm_num)

/-- C10: the middle Bollinger band is the simple moving average rounded to
2 decimal places, at aligned positions: for `j ≤ n - period`, `middle[j]`
equals `round(_sma(close, period)[j + period - 1], 2)`. -/
theorem bollinger_middle_is_rounded_sma (close : List ℝ) (period j : ℕ)
    (hp : 1 ≤ period) (hlen : period ≤ close.length)
    (hj : j ≤ close.length - period) :
    ∃ v : ℝ, (sma close period).getD (j + period - 1) none = some v ∧
      (computeBollingerBands close period 2).middle.getD j 0 = pyRound 2 v := by
  refine ⟨((close.drop (j + period - 1 + 1 - period)).take period).sum / (period : ℝ),
    ?_, ?_⟩
  · exact sma_getD_eq close period (j + period - 1) hp (by omega) (by omega)
  · rw [bb_middle_getD close period 2 hp hlen j (by omega)]
    unfold smaAt windowAt
    rw [show period - 1 + j + 1 - period = j by omega,
        show j + period - 1 + 1 - period = j by omega]

theorem bollinger_middle_is_rounded_sma_witness :
    ∃ v : ℝ, (sma ([1, 3] : List ℝ) 2).getD (0 + 2 - 1) none = some v ∧
      (computeBollingerBands [1, 3] 2 2).middle.getD 0 0 = pyRound 2 v :=
  bollinger_middle_is_rounded_sma [1, 3] 2 0 (by norm_num) (by norm_num) (by norm_num)

/-- C3 (code bug): the claim says `compute_indicators` returns a summary
without raising for every `n ≥ 0`, but on the empty close series the Python
code raises IndexError at `close[0]` (line 212), modelled here as `none`;
for every non-empty close series a summary is returned. -/
theorem computeIndicators_raises_on_empty :
    computeIndicators [] [] [] [] [] = none ∧
    ∀ (dates : List String) (close high low : List ℝ) (volume : List ℤ),
      close ≠ [] → (computeIndicators dates close high low volume).isSome := by
  constructor
  · rfl
  · intro dates close high low volume hne
    unfold computeIndicators
    dsimp only
    have hsome : ∃ y, (if 30 ≤ close.length then
        (close.drop (close.length - 30)).head? else close.head?) = some y := by
      split_ifs with h30
      · cases hd : (close.drop (close.length - 30)).head? with
        | none =>
            have hnil := List.head?_eq_none_iff.mp hd
            have hlen : (close.drop (close.length - 30)).length = 30 := by
              rw [List.length_drop]; omega
            rw [hnil] at hlen
            simp at hlen
        | some y => exact ⟨y, rfl⟩
      · cases hd : close.head? with
        | none => exact absurd (List.head?_eq_none_iff.mp hd) hne
        | some y => exact ⟨y, rfl⟩
    obtain ⟨y, hy⟩ := hsome
    rw [hy]
    rfl

theorem computeIndicators_raises_on_empty_witness :
    (computeIndicators ["d"] [1] [] [] []).isSome :=
  computeIndicators_raises_on_empty.2 ["d"] [1] [] [] [] (by simp)

/-- C5 (amended): whenever `compute_indicators` returns, the latest fields
`macd`, `macd_signal`, `bb_upper`, `bb_lower` equal the last element of their
series and are null exactly when that series is empty; but the fields `rsi`,
`sma_20`, `sma_50`, `sma_200` pass the last non-marker value through a Python
truthiness test: they are null when the series has no non-marker value OR
when that value equals 0.0, and otherwise hold it rounded to 2 decimals. -/
theorem latest_fields_amended (dates : List String) (close high low : List ℝ)
    (volume : List ℤ) (s : IndicatorSummary)
    (hs : computeIndicators dates close high low volume = some s) :
    (s.latest.macd = s.macd.macd.getLast? ∧
      (s.latest.macd = none ↔ s.macd.macd = [])) ∧
    (s.latest.macd_signal = s.macd.signal.getLast? ∧
      (s.latest.macd_signal = none ↔ s.macd.signal = [])) ∧
    (s.latest.bb_upper = s.bollinger_bands.upper.getLast? ∧
      (s.latest.bb_upper = none ↔ s.bollinger_bands.upper = [])) ∧
    (s.latest.bb_lower = s.bollinger_bands.lower.getLast? ∧
      (s.latest.bb_lower = none ↔ s.bollinger_bands.lower = [])) ∧
    ((s.latest.rsi = none ↔ lastSome s.rsi = none ∨ lastSome s.rsi = some 0) ∧
      ∀ v : ℝ, lastSome s.rsi = some v → v ≠ 0 →
        s.latest.rsi = some (pyRound 2 v)) ∧
    ((s.latest.sma_20 = none ↔
        lastSome s.sma_20 = none ∨ lastSome s.sma_20 = some 0) ∧
      ∀ v : ℝ, lastSome s.sma_20 = some v → v ≠ 0 →
        s.latest.sma_20 = some (pyRound 2 v)) ∧
    ((s.latest.sma_50 = none ↔
        lastSome s.sma_50 = none ∨ lastSome s.sma_50 = some 0) ∧
      ∀ v : ℝ, lastSome s.sma_50 = some v → v ≠ 0 →
        s.latest.sma_50 = some (pyRound 2 v)) ∧
    ((s.latest.sma_200 = none ↔
        lastSome s.sma_200 = none ∨ lastSome s.sma_200 = some 0) ∧
      ∀ v : ℝ, lastSome s.sma_200 = some v → v ≠ 0 →
        s.latest.sma_200 = some (pyRound 2 v)) := by
  unfold computeIndicators at hs
  dsimp only at hs
  split at hs
  · exact absurd hs (by simp)
  · have hinj := Option.some.inj hs
    subst hinj
    refine ⟨⟨rfl, ?_⟩, ⟨rfl, ?_⟩, ⟨rfl, ?_⟩, ⟨rfl, ?_⟩,
      ⟨?_, ?_⟩, ⟨?_, ?_⟩, ⟨?_, ?_⟩, ⟨?_, ?_⟩⟩
    · exact List.getLast?_eq_none_iff
    · exact List.getLast?_eq_none_iff
    · exact List.getLast?_eq_none_iff
    · exact List.getLast?_eq_none_iff
    · exact roundIfTruthy_none_iff _
    · intro v hv hv0
      dsimp only at hv ⊢
      rw [hv, roundIfTruthy_some hv0]
    · exact roundIfTruthy_none_iff _
    · intro v hv hv0
      dsimp only at hv ⊢
      rw [hv, roundIfTruthy_some hv0]
    · exact roundIfTruthy_none_iff _
    · intro v hv hv0
      dsimp only at hv ⊢
      rw [hv, roundIfTruthy_some hv0]
    · exact roundIfTruthy_none_iff _
    · intro v hv hv0
      dsimp only at hv ⊢
      rw [hv, roundIfTruthy_some hv0]

theorem latest_fields_amended_witness :
    (let s : IndicatorSummary :=
      { rsi := [none], macd := ⟨[], [], []⟩, bollinger_bands := ⟨[], [], []⟩,
        sma_20 := List.replicate 19 none, sma_50 := List.replicate 49 none,
        sma_200 := List.replicate 199 none,
        latest := ⟨1, none, none, none, none, none, none, none, none, none,
          "Sideways", 0⟩,
        signals := [], data_points := 1 }
    (s.latest.macd = s.macd.macd.getLast? ∧
      (s.latest.macd = none ↔ s.macd.macd = [])) ∧
    (s.latest.macd_signal = s.macd.signal.getLast? ∧
      (s.latest.macd_signal = none ↔ s.macd.signal = [])) ∧
    (s.latest.bb_upper = s.bollinger_bands.upper.getLast? ∧
      (s.latest.bb_upper = none ↔ s.bollinger_bands.upper = [])) ∧
    (s.latest.bb_lower = s.bollinger_bands.lower.getLast? ∧
      (s.latest.bb_lower = none ↔ s.bollinger_bands.lower = [])) ∧
    ((s.latest.rsi = none ↔ lastSome s.rsi = none ∨ lastSome s.rsi = some 0) ∧
      ∀ v : ℝ, lastSome s.rsi = some v → v ≠ 0 →
        s.latest.rsi = some (pyRound 2 v)) ∧
    ((s.latest.sma_20 = none ↔
        lastSome s.sma_20 = none ∨ lastSome s.sma_20 = some 0) ∧
      ∀ v : ℝ, lastSome s.sma_20 = some v → v ≠ 0 →
        s.latest.sma_20 = some (pyRound 2 v)) ∧
    ((s.latest.sma_50 = none ↔
        lastSome s.sma_50 = none ∨ lastSome s.sma_50 = some 0) ∧
      ∀ v : ℝ, lastSome s.sma_50 = some v → v ≠ 0 →
        s.latest.sma_50 = some (pyRound 2 v)) ∧
    ((s.latest.sma_200 = none ↔
        lastSome s.sma_200 = none ∨ lastSome s.sma_200 = some 0) ∧
      ∀ v : ℝ, lastSome s.sma_200 = some v → v ≠ 0 →
        s.latest.sma_200 = some (pyRound 2 v))) :=
  latest_fields_amended ["d"] [1] [] [] [] _ computeIndicators_single

/-- C5 counterexample: on a 20-day close series alternating 1 and -1, the
20-day SMA series ends with the present value 0.0, yet `latest.sma_20` is
reported as null — the truthiness test `round(v, 2) if v else None` replaces
a present 0.0 by null, contradicting the claim. -/
theorem latest_zero_becomes_null_counterexample :
    (computeIndicators [] altCloses [] [] []).map
      (fun s => (lastSome s.sma_20, s.latest.sma_20)) = some (some 0, none) := by
  have hlen : altCloses.length = 20 := rfl
  have hsma : sma altCloses 20 = List.replicate 19 none ++ [some 0] := by
    unfold sma
    rw [hlen]
    norm_num [List.range']
    rw [show (20 : ℕ) = altCloses.length from rfl, List.take_length]
    unfold altCloses
    norm_num
  unfold computeIndicators
  dsimp only
  rw [if_neg (by rw [hlen]; norm_num)]
  rw [show altCloses.head? = some 1 from rfl]
  dsimp only
  rw [Option.map_some']
  dsimp only
  rw [hsma, lastSome_append_some]
  simp [roundIfTruthy]

end Claims

end TechnicalAnalysis
